import Mathlib

/-!
Verification of the text-normalization and requirement-detection core of the
`italian_grants_crawler` repository.

The definitions below are a shallow embedding of:
  * `src/core/data_processor.py`  (clean_text, extract_number, parse_date,
    match_to_controlled_vocab, generate_variants, process_grant_data and the
    column/vocabulary tables), and
  * `find_target_words` of `src/crawlers/regional/lombardia_crawler.py`
    (context-window requirement detection).

Modelling conventions:
  * Python strings are `String` / `List Char`; `str | None` is `Option String`.
  * Python floats are modelled as `ℚ`; the decimal strings the code parses are
    represented exactly.
  * Python dicts are association lists with distinct keys; insertion updates of
    existing keys are `dictSet`, key tests are `hasKey`, `d[k]` is `lookupA`.
  * Character classes (`\s`, `\d`, `\w` of `re`, `str.strip`, `str.lower`) are
    modelled on the ASCII range plus the accented letters occurring in the
    repository's Italian word lists, which is the alphabet the code runs on.
-/

set_option maxRecDepth 10000

/-- Python's substring test `p in s` (contiguous occurrence; the empty string
occurs in every string). -/
def containsSub : List Char → List Char → Bool
  | p, [] => p.isEmpty
  | p, c :: t => p.isPrefixOf (c :: t) || containsSub p t

/-- Whitespace as matched by Python's `\s` and stripped by `str.strip`
(ASCII part: space, tab, newline, carriage return, vertical tab, form feed). -/
def isPySpace (c : Char) : Bool :=
  c = ' ' || c = '\t' || c = '\n' || c = '\r' || c = '\x0b' || c = '\x0c'

/-- Lower-casing of a character sequence, modelling `str.lower` on the
alphabet used by the repository (ASCII letters; accented letters in the data
are already lower case). -/
def lowerL (l : List Char) : List Char := l.map Char.toLower

/-- Lower-casing of a string (`str.lower`). -/
def lowerS (s : String) : String := String.mk (lowerL s.data)

/-- One left-to-right pass of `re.sub(r'\s+', ' ', text)`: the flag records
whether the previous character was whitespace, so that the first whitespace
character of a run emits a single `' '` and the rest of the run is dropped. -/
def collapseAux : Bool → List Char → List Char
  | _, [] => []
  | prevWs, c :: cs =>
    if isPySpace c then
      if prevWs then collapseAux true cs else ' ' :: collapseAux true cs
    else c :: collapseAux false cs

/-- `re.sub(r'\s+', ' ', text)`: every maximal whitespace run becomes one space. -/
def collapseWs (l : List Char) : List Char := collapseAux false l

/-- `str.strip()`: remove leading and trailing whitespace. -/
def stripWs (l : List Char) : List Char :=
  (l.dropWhile isPySpace).rdropWhile isPySpace

/-- Body of `clean_text` on the character list of a non-null input. -/
def cleanChars (l : List Char) : List Char := stripWs (collapseWs l)

/-- `clean_text` (src/core/data_processor.py, lines 175-182): `None` becomes
`""`, otherwise whitespace runs are collapsed to single spaces and the ends
are trimmed. -/
def clean_text : Option String → String
  | none => ""
  | some s => String.mk (cleanChars s.data)

/-- Characters of the captured group `[\d.,]+` of `extract_number`'s regex. -/
def isNumChar (c : Char) : Bool := c.isDigit || c = '.' || c = ','

/-- First (leftmost, maximal) run of `[\d.,]` characters in the text: the
captured group of the first match of `(?:€\s*)?([\d.,]+)(?:\s*(?:euro|€|EUR))?`,
i.e. `re.findall(...)[0]` of `extract_number`.  The optional currency prefix
and suffix do not change the captured group. -/
def firstNumRun : List Char → Option (List Char)
  | [] => none
  | c :: cs =>
    if isNumChar c then some (c :: cs.takeWhile isNumChar) else firstNumRun cs

/-- `value_str.replace('.', '').replace(',', '.')`: drop the thousands dots,
turn the decimal comma into a dot. -/
def normalizeNum (l : List Char) : List Char :=
  (l.filter (fun c => !(c = '.'))).map (fun c => if c = ',' then '.' else c)

/-- Decimal digits to a natural number (most significant first). -/
def digitsToNat (l : List Char) : Nat :=
  l.foldl (fun n c => 10 * n + (c.toNat - 48)) 0

/-- Python `float(s)` on the strings reachable in `extract_number` (digits and
dots only, after `normalizeNum`): an optional integer part, an optional dot
with an optional fractional part; at least one digit overall and at most one
dot, anything else raises `ValueError` (modelled as `none`). -/
def parseDecimal (l : List Char) : Option ℚ :=
  let intPart := l.takeWhile Char.isDigit
  let rest := l.dropWhile Char.isDigit
  match rest with
  | [] => if intPart.isEmpty then none else some (digitsToNat intPart : ℚ)
  | '.' :: fracPart =>
    if fracPart.all Char.isDigit && !(intPart.isEmpty && fracPart.isEmpty) then
      some ((digitsToNat intPart : ℚ) +
        (digitsToNat fracPart : ℚ) / (10 : ℚ) ^ fracPart.length)
    else none
  | _ => none

/-- `extract_number` (src/core/data_processor.py, lines 184-198): `None`/empty
input gives `None`; otherwise the first `[\d.,]+` group is normalized and
parsed as a float, with a parse failure giving `None`. -/
def extract_number : Option String → Option ℚ
  | none => none
  | some s =>
    if s.data.isEmpty then none
    else
      match firstNumRun s.data with
      | none => none
      | some run => parseDecimal (normalizeNum run)

/-- Gregorian leap year, as validated by `datetime`. -/
def isLeapYear (y : Nat) : Bool :=
  y % 4 = 0 && (!(y % 100 = 0) || y % 400 = 0)

/-- Length of a month, as validated by `datetime`. -/
def daysInMonth (y m : Nat) : Nat :=
  if m = 2 then (if isLeapYear y then 29 else 28)
  else if m = 4 || m = 6 || m = 9 || m = 11 then 30
  else 31

/-- Validity check performed by the `datetime` constructor inside `strptime`
(year at least 1, month 1-12, day within the month). -/
def validDate (y m d : Nat) : Bool :=
  1 ≤ y && 1 ≤ m && m ≤ 12 && 1 ≤ d && d ≤ daysInMonth y m

/-- A `%d`/`%m` field of `strptime`: the run of digits must be one or two
characters and its value must lie in `lo..hi` (`%d`: 1..31, `%m`: 1..12);
this reproduces CPython's field regexes `3[01]|[12]\d|0[1-9]|[1-9]` and
`1[0-2]|0[1-9]|[1-9]` when the field is delimited by non-digits. -/
def twoDigitField (lo hi : Nat) (run : List Char) : Option Nat :=
  if (run.length = 1 || run.length = 2) && lo ≤ digitsToNat run &&
      digitsToNat run ≤ hi then
    some (digitsToNat run)
  else none

/-- `datetime.strptime(s, '%d<sep>%m<sep>%Y')`: day field, separator, month
field, separator, exactly four year digits, end of string, then `datetime`
validation.  Returns `(year, month, day)`. -/
def parseDMY (sep : Char) (l : List Char) : Option (Nat × Nat × Nat) :=
  match twoDigitField 1 31 (l.takeWhile Char.isDigit), l.dropWhile Char.isDigit with
  | some d, s1 :: r2 =>
    if s1 = sep then
      match twoDigitField 1 12 (r2.takeWhile Char.isDigit), r2.dropWhile Char.isDigit with
      | some m, s2 :: r4 =>
        if s2 = sep then
          if r4.length = 4 && r4.all Char.isDigit && validDate (digitsToNat r4) m d then
            some (digitsToNat r4, m, d)
          else none
        else none
      | _, _ => none
    else none
  | _, _ => none

/-- `datetime.strptime(s, '%Y<sep>%m<sep>%d')`: exactly four year digits,
separator, month field, separator, day field, end of string, then `datetime`
validation.  Returns `(year, month, day)`. -/
def parseYMD (sep : Char) (l : List Char) : Option (Nat × Nat × Nat) :=
  if (l.take 4).length = 4 && (l.take 4).all Char.isDigit then
    match l.drop 4 with
    | s1 :: r1 =>
      if s1 = sep then
        match twoDigitField 1 12 (r1.takeWhile Char.isDigit), r1.dropWhile Char.isDigit with
        | some m, s2 :: r3 =>
          if s2 = sep then
            match twoDigitField 1 31 (r3.takeWhile Char.isDigit) with
            | some d =>
              if (r3.dropWhile Char.isDigit).isEmpty &&
                  validDate (digitsToNat (l.take 4)) m d then
                some (digitsToNat (l.take 4), m, d)
              else none
            | none => none
          else none
        | _, _ => none
      else none
    | [] => none
  else none

/-- The six explicit formats of `parse_date`, tried in source order:
`%d/%m/%Y`, `%d-%m-%Y`, `%d.%m.%Y`, `%Y/%m/%d`, `%Y-%m-%d`, `%Y.%m.%d`. -/
def tryFormats (l : List Char) : Option (Nat × Nat × Nat) :=
  (parseDMY '/' l).orElse fun _ =>
  (parseDMY '-' l).orElse fun _ =>
  (parseDMY '.' l).orElse fun _ =>
  (parseYMD '/' l).orElse fun _ =>
  (parseYMD '-' l).orElse fun _ =>
  parseYMD '.' l

/-- Decimal digits of `n`, left-padded with zeros to width `w`
(`strftime` zero padding). -/
def padNum (w n : Nat) : List Char :=
  let s := Nat.toDigits 10 n
  List.replicate (w - s.length) '0' ++ s

/-- `date_obj.strftime('%Y-%m-%d')`. -/
def formatYMD : Nat × Nat × Nat → List Char
  | (y, m, d) => padNum 4 y ++ ('-' :: padNum 2 m) ++ ('-' :: padNum 2 d)

/-- The Italian month table of `parse_date`, in its (insertion-ordered)
iteration order. -/
def months_it : List (List Char × List Char) :=
  [("gennaio".data, "01".data), ("febbraio".data, "02".data),
   ("marzo".data, "03".data), ("aprile".data, "04".data),
   ("maggio".data, "05".data), ("giugno".data, "06".data),
   ("luglio".data, "07".data), ("agosto".data, "08".data),
   ("settembre".data, "09".data), ("ottobre".data, "10".data),
   ("novembre".data, "11".data), ("dicembre".data, "12".data)]

/-- `day.zfill(2)`. -/
def zfill2 (l : List Char) : List Char := List.replicate (2 - l.length) '0' ++ l

/-- Attempt of the month regex `(\d+)\s+<name>\s+(\d{4})` at one candidate
position (the head of `s` is a digit): the greedy day run, mandatory
whitespace, the month name, mandatory whitespace, four year digits.  Returns
the captured `(day, year)` strings. -/
def trySearchAt (name s : List Char) : Option (List Char × List Char) :=
  let day := s.takeWhile Char.isDigit
  let r1 := s.dropWhile Char.isDigit
  if (r1.takeWhile isPySpace).isEmpty then none
  else
    let r2 := r1.dropWhile isPySpace
    if name.isPrefixOf r2 then
      let r3 := r2.drop name.length
      if (r3.takeWhile isPySpace).isEmpty then none
      else
        let r4 := r3.dropWhile isPySpace
        if (r4.take 4).length = 4 && (r4.take 4).all Char.isDigit then
          some (day, r4.take 4)
        else none
    else none

/-- Left-to-right scan of `re.search` for `(\d+)\s+<name>\s+(\d{4})`: at a
digit the whole (maximal) digit run is the only candidate day capture — an
attempt starting inside a run sees the same suffix, so on failure the run is
skipped.  The fuel argument bounds the scan by the text length. -/
def searchDMYFrom (name : List Char) : Nat → List Char → Option (List Char × List Char)
  | 0, _ => none
  | _ + 1, [] => none
  | fuel + 1, c :: cs =>
    if c.isDigit then
      match trySearchAt name (c :: cs) with
      | some r => some r
      | none => searchDMYFrom name fuel ((c :: cs).dropWhile Char.isDigit)
    else searchDMYFrom name fuel cs

/-- `re.search(fr'(\d+)\s+{month_name}\s+(\d{4})', s)` (leftmost match). -/
def searchDMY (name s : List Char) : Option (List Char × List Char) :=
  searchDMYFrom name s.length s

/-- The month-name fallback loop of `parse_date`: for each month (in table
order) whose name occurs in the lowered text, run the day/year regex; the
first month whose regex matches yields `f"{year}-{month_num}-{day.zfill(2)}"`. -/
def monthScanGo (low : List Char) : List (List Char × List Char) → Option (List Char)
  | [] => none
  | (name, num) :: rest =>
    if containsSub name low then
      match searchDMY name low with
      | some (day, year) => some (year ++ ('-' :: num) ++ ('-' :: zfill2 day))
      | none => monthScanGo low rest
    else monthScanGo low rest

/-- Month-name fallback of `parse_date` on the cleaned text. -/
def monthScan (t : List Char) : Option (List Char) := monthScanGo (lowerL t) months_it

/-- `parse_date` (src/core/data_processor.py, lines 200-237): falsy input
(`None` or `""`) gives `None`; otherwise the text is cleaned, the six explicit
formats are tried in order, then the Italian month-name scan, and finally the
cleaned text itself is returned. -/
def parse_date : Option String → Option String
  | none => none
  | some s =>
    if s.data.isEmpty then none
    else
      let t := cleanChars s.data
      match tryFormats t with
      | some ymd => some (String.mk (formatYMD ymd))
      | none =>
        match monthScan t with
        | some r => some (String.mk r)
        | none => some (String.mk t)

/-- Maximal non-whitespace chunks of `term.split()`. -/
def splitWords (l : List Char) : List (List Char) :=
  (l.splitOnP isPySpace).filter (fun w => !w.isEmpty)

/-- `generate_variants` (src/core/data_processor.py, lines 254-271): a single
pseudo-plural variant from the final letter of the original-cased term
(`e`→`i`, else `o`→`i`, else `a`→`e`), plus, for a term containing a space,
the upper-cased initialism `''.join(word[0] for word in term.split()).upper()`.
The `headD` default is never used: `split()` chunks are non-empty. -/
def generate_variants (term : String) : List String :=
  let l := term.data
  let endingVariants : List String :=
    if l.getLast? = some 'e' then [String.mk (l.dropLast ++ ['i'])]
    else if l.getLast? = some 'o' then [String.mk (l.dropLast ++ ['i'])]
    else if l.getLast? = some 'a' then [String.mk (l.dropLast ++ ['e'])]
    else []
  let abbrVariants : List String :=
    if l.contains ' ' then
      [String.mk ((splitWords l).map (fun w => (w.headD 'A').toUpper))]
    else []
  endingVariants ++ abbrVariants

/-- `match_to_controlled_vocab` (src/core/data_processor.py, lines 239-252):
falsy text gives `[]`; otherwise the text is lowered once and each vocabulary
item (in list order) is kept when its lowered literal form, or one of its
`generate_variants` (original-cased), occurs in the lowered text. -/
def match_to_controlled_vocab (text : Option String) (vocab_list : List String) :
    List String :=
  match text with
  | none => []
  | some s =>
    if s.data.isEmpty then []
    else
      let t := lowerL s.data
      vocab_list.foldl
        (fun ms item =>
          if containsSub (lowerL item.data) t ||
              (generate_variants item).any (fun v => containsSub v.data t) then
            ms ++ [item]
          else ms)
        []

/-- The 37 output columns of `process_grant_data` (EXPECTED_COLUMNS,
src/core/data_processor.py, lines 9-47), in source order. -/
def EXPECTED_COLUMNS : List String :=
  ["Nome del bando",
   "Categoria del bando_MR",
   "Descrizione breve (Plain text)",
   "Descrizione del bando",
   "Descrizione fondo perduto",
   "Descrizione tipo di agevolazione e emanazione",
   "Dotazione",
   "Percentuale fondo perduto number",
   "Richiesta massima (number)",
   "Richiesta minima (number)",
   "Regime di aiuto",
   "Spese ammissibili",
   "Spese ammissibili_MR",
   "A chi si rivolge",
   "A chi si rivolge_MR",
   "Codice ateco",
   "Excluded Codice ateco",
   "Settore_MR",
   "Sezione",
   "Cumulabilità",
   "Scadenza",
   "Scadenza interna",
   "Data di apertura",
   "Data creazione",
   "Stato del bando",
   "Tipo",
   "Iter presentazione della domanda",
   "Documentazione necessaria",
   "Esempi progetti ammissibili",
   "Promotore del bando",
   "Emanazione",
   "Provincia",
   "Località_MR",
   "Link al sito del bando",
   "Link Bando",
   "Allegato Compilativo - X",
   "Allegato informativo - X"]

/-- Controlled vocabulary A_CHI_SI_RIVOLGE (src/core/data_processor.py). -/
def A_CHI_SI_RIVOLGE : List String :=
  ["liberi professionisti", "enti pubblici", "formatori",
   "enti del terzo settore", "cittadini", "piccola impresa", "fondazioni",
   "startup", "datori di lavoro", "progetto non costituito", "università",
   "PMI", "micro impresa", "cooperative", "consorzi", "associazioni",
   "grandi imprese"]

/-- Controlled vocabulary SETTORE_MR (src/core/data_processor.py). -/
def SETTORE_MR : List String :=
  ["Agricoltura", "Consulenza", "Artigianato", "Alimentare",
   "Aiuto e supporto", "Cultura", "Istruzione", "Socialità", "Industria",
   "R&S", "Sostenibilità", "Turismo", "Finanziario",
   "Innovazione e digitale", "Servizi", "Sport"]

/-- Controlled vocabulary SPESE_AMMISSIBILI_MR (src/core/data_processor.py). -/
def SPESE_AMMISSIBILI_MR : List String :=
  ["Personale dipendente", "Personale esterno/consulenza", "Formazione",
   "Attrezzature e macchinari", "Affitto", "Utenze", "Acquisto immobili",
   "Opere edili e ristrutturazione", "Arredi", "Impianti di produzione",
   "Polizze assicurative", "Spese legali", "Spese amministrative",
   "Marketing", "Partecipazione a fiere ed eventi", "Spese di logistica",
   "Softwere", "Digitalizzazione", "Studi di fattibilità",
   "Ricerca di mercato", "Registrazione brevetto", "Registrazione marchio",
   "Certificazione", "Servizi", "Brevetti e licenze",
   "Spese generali / altri oneri", "Fabbricati e terreni"]

/-- The 21 ATECO section letters (SEZIONE_ATECO, src/core/data_processor.py). -/
def SEZIONE_ATECO : List String :=
  ["A", "B", "C", "D", "E", "F", "G", "H", "I", "J", "K", "L", "M", "N",
   "O", "P", "Q", "R", "S", "T", "U"]

/-- A value of a processed-record cell: Python `None`, `str`, or `float`. -/
inductive PVal : Type
  | vnull : PVal
  | vstr : String → PVal
  | vnum : ℚ → PVal
deriving DecidableEq

/-- A raw scraped field map: the dict `raw_data` with `str | None` values. -/
abbrev RawMap := List (String × Option String)

/-- A processed record: the dict `processed_data`. -/
abbrev Rec := List (String × PVal)

/-- Injection of a raw value into a record cell (plain copy-through). -/
def liftV : Option String → PVal
  | none => PVal.vnull
  | some s => PVal.vstr s

/-- First-match association-list lookup (`d[k]` of a dict with unique keys). -/
def lookupA {α : Type} (k : String) : List (String × α) → Option α
  | [] => none
  | p :: t => if p.1 = k then some p.2 else lookupA k t

/-- `k in d` for the raw dict. -/
def hasKey (raw : RawMap) (k : String) : Bool := raw.any (fun p => p.1 == k)

/-- `k in d` for the processed record. -/
def recHasKey (d : Rec) (k : String) : Bool := d.any (fun q => q.1 == k)

/-- `d[k] = v` on a record that already contains key `k` (every assignment in
`process_grant_data` is guarded by key membership, so no key is ever added). -/
def dictSet (d : Rec) (k : String) (v : PVal) : Rec :=
  d.map (fun p => if p.1 = k then (k, v) else p)

/-- `raw_data[k]` (the dict value; `none` models Python `None`). -/
def rawVal (raw : RawMap) (k : String) : Option String :=
  (lookupA k raw).getD none

/-- The free-text columns overwritten with `clean_text`
(src/core/data_processor.py, lines 291-296). -/
def textFields : List String :=
  ["Nome del bando", "Descrizione breve (Plain text)",
   "Descrizione del bando", "Descrizione fondo perduto",
   "Descrizione tipo di agevolazione e emanazione",
   "Spese ammissibili", "A chi si rivolge",
   "Codice ateco", "Cumulabilità", "Iter presentazione della domanda",
   "Documentazione necessaria", "Esempi progetti ammissibili"]

/-- The numeric columns overwritten with `extract_number` (lines 301-304). -/
def numFields : List String :=
  ["Dotazione", "Percentuale fondo perduto number",
   "Richiesta massima (number)", "Richiesta minima (number)"]

/-- The date columns overwritten with `parse_date` (lines 307-309). -/
def dateFields : List String :=
  ["Scadenza interna", "Data di apertura", "Data creazione"]

/-- Cell stored for a numeric column: `extract_number`'s float, or `None`. -/
def numV (v : Option String) : PVal :=
  match extract_number v with
  | some q => PVal.vnum q
  | none => PVal.vnull

/-- Cell stored for a date column: `parse_date`'s string, or `None`. -/
def dateV (v : Option String) : PVal :=
  match parse_date v with
  | some s => PVal.vstr s
  | none => PVal.vnull

/-- Python truthiness of a `str | None` value. -/
def truthy : Option String → Bool
  | none => false
  | some s => !s.data.isEmpty

/-- `", ".join(items)`. -/
def joinComma (items : List String) : String := String.intercalate ", " items

/-- The ATECO-section scan of `process_grant_data` (lines 329-332): a section
letter is kept when it occurs verbatim in the codes text, or when
`f"sezione {section}"` (upper-case letter) occurs in the lowered codes text. -/
def atecoSections (s : String) : List String :=
  SEZIONE_ATECO.foldl
    (fun acc sec =>
      if containsSub sec.data s.data ||
          containsSub ("sezione ".data ++ sec.data) (lowerL s.data) then
        acc ++ [sec]
      else acc)
    []

/-- Initial record of `process_grant_data`: every expected column set to `""`
(`{col: "" for col in EXPECTED_COLUMNS}`). -/
def initRec : Rec := EXPECTED_COLUMNS.map (fun c => (c, PVal.vstr ""))

/-- One step of the copy-through loop of `process_grant_data` (lines 286-288):
`if key in processed_data: processed_data[key] = value`. -/
def copyStep (d : Rec) (p : String × Option String) : Rec :=
  if recHasKey d p.1 then dictSet d p.1 (liftV p.2) else d

/-- The shape shared by the three overwrite loops of `process_grant_data`
(lines 291-309): for each field of the list that is present in the raw dict,
store `g` of its raw value. -/
def applyFieldList (raw : RawMap) (L : List String) (g : Option String → PVal)
    (d : Rec) : Rec :=
  L.foldl (fun d f => if hasKey raw f then dictSet d f (g (rawVal raw f)) else d) d

/-- One vocabulary-derivation step of `process_grant_data` (lines 312-325):
if the source column is present in the raw dict, store the comma-joined
vocabulary matches of its raw value under the target column. -/
def vocabStep (raw : RawMap) (src tgt : String) (vocab : List String) (d : Rec) :
    Rec :=
  if hasKey raw src then
    dictSet d tgt
      (PVal.vstr (joinComma (match_to_controlled_vocab (rawVal raw src) vocab)))
  else d

/-- The ATECO-section step of `process_grant_data` (lines 328-333): fires only
when the raw codes value is present and truthy. -/
def sezioneStep (raw : RawMap) (d : Rec) : Rec :=
  if hasKey raw "Codice ateco" && truthy (rawVal raw "Codice ateco") then
    dictSet d "Sezione"
      (PVal.vstr (joinComma (atecoSections ((rawVal raw "Codice ateco").getD ""))))
  else d

/-- `process_grant_data` (src/core/data_processor.py, lines 273-335):
initialise every expected column to `""`; copy through raw values whose key is
expected; overwrite the text, numeric and date subsets; derive the three
vocabulary columns and the ATECO section column. -/
def process_grant_data (raw : RawMap) : Rec :=
  sezioneStep raw
    (vocabStep raw "Descrizione del bando" "Settore_MR" SETTORE_MR
      (vocabStep raw "Spese ammissibili" "Spese ammissibili_MR" SPESE_AMMISSIBILI_MR
        (vocabStep raw "A chi si rivolge" "A chi si rivolge_MR" A_CHI_SI_RIVOLGE
          (applyFieldList raw dateFields dateV
            (applyFieldList raw numFields numV
              (applyFieldList raw textFields (fun v => PVal.vstr (clean_text v))
                (raw.foldl copyStep initRec)))))))

/-- Word characters of Python's Unicode `\w`, on the alphabet of the
repository's texts: ASCII alphanumerics, underscore, and the accented Italian
letters occurring in the word lists. -/
def isWordChar (c : Char) : Bool :=
  c.isAlphanum || c = '_' || c = 'à' || c = 'è' || c = 'é' || c = 'ì' ||
    c = 'ò' || c = 'ù'

/-- The ~40 requirement trigger keywords of `find_target_words`
(src/crawlers/regional/lombardia_crawler.py, lines 391-403). -/
def validation_keywords : List String :=
  ["allegare", "allegato", "presentare", "presentazione", "fornire",
   "obbligatorio", "necessario", "richiesto", "documentazione",
   "consegnare", "produrre", "trasmettere", "accompagnato da",
   "corredato da", "da presentare", "dovranno essere allegati",
   "è richiesto", "è necessario", "deve essere allegato",
   "va allegato", "documenti da allegare", "è obbligatorio",
   "completo di", "comprensivo di", "deve riportare",
   "da compilare", "da firmare", "firmato", "sottoscritto",
   "va presentato", "si richiede", "sarà necessario",
   "documento richiesto", "da trasmettere", "occorre presentare",
   "documento obbligatorio", "insieme a", "copia", "file", "modulo"]

/-- The negation phrases of `find_target_words` (lines 406-410). -/
def exclusion_contexts : List String :=
  ["non è necessario", "non è richiesto", "non obbligatorio",
   "facoltativo", "non è obbligatorio", "non deve essere allegato",
   "non sarà richiesto", "non sono richiesti", "opzionale"]

/-- The apostrophe character, written by code point. -/
def apos : Char := Char.ofNat 39

/-- The critical-documents subset of `find_target_words` (lines 413-416);
the second entry is `carta d'identità`, assembled around the apostrophe. -/
def critical_documents : List String :=
  ["codice fiscale", "carta d" ++ String.mk [apos] ++ "identità",
   "documento identità", "partita iva", "visura camerale", "durc", "iban",
   "preventivi"]

/-- Whether position `i` of `text` holds a word character (out of range counts
as non-word). -/
def wordAtIdx (text : List Char) (i : Nat) : Bool :=
  match text.get? i with
  | some c => isWordChar c
  | none => false

/-- The `\b` word boundary of `re` between positions `j-1` and `j`. -/
def boundaryAt (text : List Char) (j : Nat) : Bool :=
  (if j = 0 then false else wordAtIdx text (j - 1)) != wordAtIdx text j

/-- Whether the pattern occurs at position `j` of the (lowered) text with word
boundaries on both sides: one match of `(?i)\b<escaped target>\b` (pattern and
text are both lower-cased, so plain equality is the case-insensitive match). -/
def matchAt (pat text : List Char) (j : Nat) : Bool :=
  ((text.drop j).take pat.length == pat) && boundaryAt text j &&
    boundaryAt text (j + pat.length)

/-- `re.finditer` scan: candidate positions left to right, resuming after the
end of each match (non-overlapping); the fuel bounds the scan. -/
def findOccsFrom (pat text : List Char) : Nat → Nat → List Nat
  | 0, _ => []
  | fuel + 1, j =>
    if j + pat.length ≤ text.length then
      if matchAt pat text j then j :: findOccsFrom pat text fuel (j + pat.length)
      else findOccsFrom pat text fuel (j + 1)
    else []

/-- All match start positions of `re.finditer(pattern, text)`. -/
def findOccs (pat text : List Char) : List Nat :=
  findOccsFrom pat text (text.length + 1) 0

/-- The symmetric context window `text[max(0, j-W) : min(len, j+plen+W)]`
around a match at `j` of length `plen`. -/
def ctxWindow (text : List Char) (W plen j : Nat) : List Char :=
  (text.drop (j - W)).take (min text.length (j + plen + W) - (j - W))

/-- The highlighted snippet
`f"...{text[start:m.start()]}**{matched}**{text[m.end():end]}..."`. -/
def highlightSnippet (text : List Char) (W plen j : Nat) : List Char :=
  "...".data ++ ((text.drop (j - W)).take (j - (j - W))) ++ "**".data ++
    ((text.drop j).take plen) ++ "**".data ++
    ((text.drop (j + plen)).take (min text.length (j + plen + W) - (j + plen))) ++
    "...".data

/-- Whether a context window contains one of the negation phrases. -/
def ctxHasExcl (ctx : List Char) : Bool :=
  exclusion_contexts.any (fun e => containsSub e.data ctx)

/-- Whether a context window contains one of the trigger keywords. -/
def ctxHasKw (ctx : List Char) : Bool :=
  validation_keywords.any (fun k => containsSub k.data ctx)

/-- Whether the occurrence at position `j` is confirmed: its context window
contains no negation phrase and at least one trigger keyword. -/
def goodOcc (text : List Char) (W plen j : Nat) : Bool :=
  !ctxHasExcl (ctxWindow text W plen j) && ctxHasKw (ctxWindow text W plen j)

/-- Per-occurrence step of `find_target_words` (lines 440-466): state is
`(valid_match, contexts)`; an occurrence in a negation context is skipped;
the critical branch confirms on any trigger keyword in the window; the
non-critical branch builds the list of found keywords and confirms when it is
non-empty. -/
def occStep (critical : Bool) (text : List Char) (W plen : Nat)
    (st : Bool × List (List Char)) (j : Nat) : Bool × List (List Char) :=
  let ctx := ctxWindow text W plen j
  if ctxHasExcl ctx then st
  else if critical then
    if ctxHasKw ctx then (true, st.2 ++ [highlightSnippet text W plen j]) else st
  else
    if (validation_keywords.filter (fun k => containsSub k.data ctx)).isEmpty then st
    else (true, st.2 ++ [highlightSnippet text W plen j])

/-- Per-target step of `find_target_words` (lines 418-472): lower the target,
pick the context window width (300 for critical documents, 200 otherwise),
prefilter by substring, skip short space-free targets, scan the occurrences
and, if any is confirmed, append the target and its snippets to the result. -/
def processTarget (text : List Char)
    (acc : List String × List (String × List (List Char))) (target : String) :
    List String × List (String × List (List Char)) :=
  let tl := lowerS target
  let tld := tl.data
  let W := if critical_documents.contains tl then 300 else 200
  if containsSub tld text then
    if tld.contains ' ' || decide (3 < tld.length) then
      let occs := findOccs tld text
      if occs.isEmpty then acc
      else
        let st := occs.foldl
          (occStep (critical_documents.contains tl) text W tld.length) (false, [])
        if st.1 then (acc.1 ++ [target], acc.2 ++ [(target, st.2)]) else acc
    else acc
  else acc

/-- `find_target_words` (src/crawlers/regional/lombardia_crawler.py, lines
370-474): empty or all-whitespace text yields nothing; otherwise the lowered
text is scanned for each target in catalog order.  Returns
`(found_words, context_dict)` with the dict as an association list in
insertion order. -/
def find_target_words (text : String) (target_words : List String) :
    List String × List (String × List (List Char)) :=
  if text.data.all isPySpace then ([], [])
  else target_words.foldl (processTarget (lowerL text.data)) ([], [])

/-- Variant of `occStep` in which the non-critical branch applies the critical
branch's test — the window still contains at least one trigger keyword —
stated from the claim that both branches perform the identical test. -/
def occStepU (critical : Bool) (text : List Char) (W plen : Nat)
    (st : Bool × List (List Char)) (j : Nat) : Bool × List (List Char) :=
  let ctx := ctxWindow text W plen j
  if ctxHasExcl ctx then st
  else if critical then
    if ctxHasKw ctx then (true, st.2 ++ [highlightSnippet text W plen j]) else st
  else
    if ctxHasKw ctx then (true, st.2 ++ [highlightSnippet text W plen j]) else st

/-- `processTarget` with the uniform confirmation test of `occStepU`. -/
def processTargetU (text : List Char)
    (acc : List String × List (String × List (List Char))) (target : String) :
    List String × List (String × List (List Char)) :=
  let tl := lowerS target
  let tld := tl.data
  let W := if critical_documents.contains tl then 300 else 200
  if containsSub tld text then
    if tld.contains ' ' || decide (3 < tld.length) then
      let occs := findOccs tld text
      if occs.isEmpty then acc
      else
        let st := occs.foldl
          (occStepU (critical_documents.contains tl) text W tld.length) (false, [])
        if st.1 then (acc.1 ++ [target], acc.2 ++ [(target, st.2)]) else acc
    else acc
  else acc

/-- `find_target_words` with the uniform confirmation test on both branches;
criticality then only selects the context-window width. -/
def find_target_words_uniform (text : String) (target_words : List String) :
    List String × List (String × List (List Char)) :=
  if text.data.all isPySpace then ([], [])
  else target_words.foldl (processTargetU (lowerL text.data)) ([], [])

/-- Whitespace-normal form of a character list: every whitespace character is
a plain space, and no two adjacent characters are both whitespace. -/
def WsNorm (l : List Char) : Prop :=
  (∀ c ∈ l, isPySpace c = true → c = ' ') ∧
    l.Chain' (fun a b => isPySpace a = false ∨ isPySpace b = false)

/-- The four columns of `process_grant_data` that are derived from a source
column rather than from their own raw value. -/
def derivedCols : List String :=
  ["A chi si rivolge_MR", "Spese ammissibili_MR", "Settore_MR", "Sezione"]

/-! ## Properties of the text normalizer -/

theorem dropWhile_head_false {α : Type} (p : α → Bool) :
    ∀ (l : List α) (d : α) (ds : List α), l.dropWhile p = d :: ds → p d = false := by
  intro l
  induction l with
  | nil => intro d ds h; simp [List.dropWhile] at h
  | cons a t ih =>
    intro d ds h
    rw [List.dropWhile_cons] at h
    split at h
    · exact ih d ds h
    · next hpa =>
      injection h with h1 _
      subst h1
      simpa using hpa

theorem collapseAux_space :
    ∀ (l : List Char) (b : Bool) (c : Char),
      c ∈ collapseAux b l → isPySpace c = true → c = ' ' := by
  intro l
  induction l with
  | nil => intro b c hc; simp [collapseAux] at hc
  | cons a t ih =>
    intro b c hc hsp
    by_cases ha : isPySpace a = true
    · cases b with
      | true =>
        rw [show collapseAux true (a :: t) = collapseAux true t by
          simp [collapseAux, ha]] at hc
        exact ih true c hc hsp
      | false =>
        rw [show collapseAux false (a :: t) = ' ' :: collapseAux true t by
          simp [collapseAux, ha]] at hc
        rcases List.mem_cons.mp hc with h | h
        · exact h
        · exact ih true c h hsp
    · rw [show collapseAux b (a :: t) = a :: collapseAux false t by
        simp [collapseAux, ha]] at hc
      rcases List.mem_cons.mp hc with h | h
      · subst h; exact absurd hsp ha
      · exact ih false c h hsp

theorem collapseAux_true_head :
    ∀ (l : List Char) (y : Char) (t : List Char),
      collapseAux true l = y :: t → isPySpace y = false := by
  intro l
  induction l with
  | nil => intro y t h; simp [collapseAux] at h
  | cons a s ih =>
    intro y t h
    by_cases ha : isPySpace a = true
    · rw [show collapseAux true (a :: s) = collapseAux true s by
        simp [collapseAux, ha]] at h
      exact ih y t h
    · rw [show collapseAux true (a :: s) = a :: collapseAux false s by
        simp [collapseAux, ha]] at h
      injection h with h1 _
      subst h1
      simpa using ha

theorem collapseAux_chain :
    ∀ (l : List Char) (b : Bool),
      (collapseAux b l).Chain' (fun x y => isPySpace x = false ∨ isPySpace y = false) := by
  intro l
  induction l with
  | nil => intro b; simp [collapseAux]
  | cons a t ih =>
    intro b
    by_cases ha : isPySpace a = true
    · cases b with
      | true =>
        rw [show collapseAux true (a :: t) = collapseAux true t by
          simp [collapseAux, ha]]
        exact ih true
      | false =>
        rw [show collapseAux false (a :: t) = ' ' :: collapseAux true t by
          simp [collapseAux, ha]]
        rw [List.chain'_cons']
        refine ⟨?_, ih true⟩
        intro y hy
        cases hcc : collapseAux true t with
        | nil => rw [hcc] at hy; simp at hy
        | cons z zs =>
          rw [hcc] at hy
          simp at hy
          subst hy
          exact Or.inr (collapseAux_true_head t z zs hcc)
    · rw [show collapseAux b (a :: t) = a :: collapseAux false t by
        simp [collapseAux, ha]]
      rw [List.chain'_cons']
      refine ⟨?_, ih false⟩
      intro y _
      exact Or.inl (by simpa using ha)

theorem collapseAux_fix :
    ∀ l : List Char, WsNorm l →
      collapseAux false l = l ∧
        ((∀ y ∈ l.head?, isPySpace y = false) → collapseAux true l = l) := by
  intro l
  induction l with
  | nil => intro _; exact ⟨rfl, fun _ => rfl⟩
  | cons a t ih =>
    intro hn
    obtain ⟨hsp, hch⟩ := hn
    have hnt : WsNorm t := ⟨fun c hc h => hsp c (List.mem_cons_of_mem a hc) h, hch.tail⟩
    obtain ⟨ihf, iht⟩ := ih hnt
    constructor
    · by_cases ha : isPySpace a = true
      · have ha2 : a = ' ' := hsp a (List.mem_cons_self a t) ha
        rw [show collapseAux false (a :: t) = ' ' :: collapseAux true t by
          simp [collapseAux, ha]]
        have hhead : ∀ y ∈ t.head?, isPySpace y = false := by
          intro y hy
          rcases (List.chain'_cons'.mp hch).1 y hy with h | h
          · simp [ha] at h
          · exact h
        rw [iht hhead, ha2]
      · rw [show collapseAux false (a :: t) = a :: collapseAux false t by
          simp [collapseAux, ha]]
        rw [ihf]
    · intro hhead
      have ha : isPySpace a = false := hhead a (by simp)
      rw [show collapseAux true (a :: t) = a :: collapseAux false t by
        simp [collapseAux, ha]]
      rw [ihf]

theorem collapseWs_wsNorm (l : List Char) : WsNorm (collapseWs l) :=
  ⟨fun c hc h => collapseAux_space l false c hc h, collapseAux_chain l false⟩

theorem collapseWs_fix (l : List Char) (h : WsNorm l) : collapseWs l = l :=
  (collapseAux_fix l h).1

theorem isInfixParts {α : Type} {l₁ l₂ l₃ : List α} (h1 : l₁ <+: l₂) (h2 : l₂ <:+ l₃) :
    l₁ <:+: l₃ := by
  obtain ⟨t, ht⟩ := h1
  obtain ⟨s, hs⟩ := h2
  exact ⟨s, t, by rw [← hs, ← ht]; simp⟩

theorem stripWs_isInfix (l : List Char) : stripWs l <:+: l := by
  unfold stripWs
  exact isInfixParts (List.rdropWhile_prefix _ _) (List.dropWhile_suffix _)

theorem wsNorm_of_isInfix {l m : List Char} (h : WsNorm m) (hinf : l <:+: m) :
    WsNorm l := by
  constructor
  · intro c hc hsp
    exact h.1 c (hinf.subset hc) hsp
  · exact List.Chain'.infix h.2 hinf

theorem stripWs_fix (l : List Char)
    (h1 : ∀ d ∈ l.head?, isPySpace d = false)
    (h2 : ∀ (hl : l ≠ []), isPySpace (l.getLast hl) = false) : stripWs l = l := by
  unfold stripWs
  have hd : l.dropWhile isPySpace = l := by
    cases l with
    | nil => rfl
    | cons a t =>
      rw [List.dropWhile_cons]
      have := h1 a (by simp)
      simp [this]
  rw [hd, List.rdropWhile_eq_self_iff]
  intro hl
  simp [h2 hl]

theorem stripWs_head (l : List Char) :
    ∀ d ∈ (stripWs l).head?, isPySpace d = false := by
  intro d hd
  obtain ⟨t, ht⟩ := List.rdropWhile_prefix isPySpace (l.dropWhile isPySpace)
  cases hsw : stripWs l with
  | nil => rw [hsw] at hd; simp at hd
  | cons a s =>
    rw [hsw] at hd
    simp at hd
    subst hd
    unfold stripWs at hsw
    rw [hsw] at ht
    exact dropWhile_head_false isPySpace l a (s ++ t) (by rw [← ht]; simp)

theorem stripWs_last (l : List Char) :
    ∀ (hl : stripWs l ≠ []), isPySpace ((stripWs l).getLast hl) = false := by
  intro hl
  have h2 : List.rdropWhile isPySpace (l.dropWhile isPySpace) ≠ [] := hl
  have := List.rdropWhile_last_not isPySpace (l.dropWhile isPySpace) h2
  simpa using this

theorem cleanChars_idem (l : List Char) : cleanChars (cleanChars l) = cleanChars l := by
  have h1 : WsNorm (cleanChars l) :=
    wsNorm_of_isInfix (collapseWs_wsNorm l) (stripWs_isInfix (collapseWs l))
  show stripWs (collapseWs (cleanChars l)) = cleanChars l
  rw [collapseWs_fix _ h1]
  exact stripWs_fix _ (stripWs_head (collapseWs l)) (stripWs_last (collapseWs l))

/-- C9: `clean_text` returns `""` for null and for empty input, collapses
every maximal whitespace run (including newlines) to a single space, trims
both ends, and is idempotent: `clean_text (clean_text x) = clean_text x` for
every string `x`. -/
theorem clean_text_c9 :
    clean_text none = "" ∧ clean_text (some "") = "" ∧
      ∀ x : String, clean_text (some (clean_text (some x))) = clean_text (some x) := by
  refine ⟨rfl, by decide, fun x => ?_⟩
  show String.mk (cleanChars (String.mk (cleanChars x.data)).data) =
    String.mk (cleanChars x.data)
  exact congrArg String.mk (cleanChars_idem x.data)

/-- Witness for C9 at a concrete input. -/
theorem clean_text_c9_witness :
    clean_text (some (clean_text (some "  ciao   mondo "))) =
      clean_text (some "  ciao   mondo ") :=
  clean_text_c9.2.2 "  ciao   mondo "

/-! ## Properties of the numeric extractor -/

theorem extract_number_some_eq (s : String) :
    extract_number (some s) =
      if s.data.isEmpty then none
      else
        match firstNumRun s.data with
        | none => none
        | some run => parseDecimal (normalizeNum run) := rfl

/-- C6: `extract_number` uses only the first currency-like match, strips the
dots, turns the comma into a decimal point and parses the result;
`extract_number "€ 1.234,56" = 1234.56`, only the first figure of
`"da 1.000 a 5.000 euro"` is used, and the result is `None` when no pattern
matches or the normalized string fails to parse. -/
theorem extract_number_c6 :
    extract_number (some "€ 1.234,56") = some (1234.56 : ℚ) ∧
      extract_number (some "da 1.000 a 5.000 euro") = some (1000 : ℚ) ∧
      extract_number (some "nessun numero") = none ∧
      ∀ s : String,
        extract_number (some s) =
          (firstNumRun s.data).bind (fun run => parseDecimal (normalizeNum run)) := by
  refine ⟨?_, ?_, by decide, fun s => ?_⟩
  · simp [extract_number, firstNumRun, isNumChar, normalizeNum, parseDecimal, digitsToNat]
    norm_num
  · simp [extract_number, firstNumRun, isNumChar, normalizeNum, parseDecimal, digitsToNat]
  · rw [extract_number_some_eq]
    by_cases h : s.data.isEmpty
    · have h2 : s.data = [] := by
        cases hd : s.data with
        | nil => rfl
        | cons a t => rw [hd] at h; simp at h
      simp [h, h2, firstNumRun]
    · simp only [h, Bool.false_eq_true, if_false]
      cases firstNumRun s.data <;> simp

/-- Witness for C6 at a concrete input. -/
theorem extract_number_c6_witness :
    extract_number (some "x 12,5 y") =
      (firstNumRun "x 12,5 y".data).bind (fun run => parseDecimal (normalizeNum run)) :=
  extract_number_c6.2.2.2 "x 12,5 y"

/-! ## Properties of the date parser -/

theorem parse_date_some_eq (s : String) :
    parse_date (some s) =
      if s.data.isEmpty then none
      else
        match tryFormats (cleanChars s.data) with
        | some ymd => some (String.mk (formatYMD ymd))
        | none =>
          match monthScan (cleanChars s.data) with
          | some r => some (String.mk r)
          | none => some (String.mk (cleanChars s.data)) := rfl

theorem isEmpty_false_of_ne (l : List Char) (h : l ≠ []) : l.isEmpty = false := by
  cases hd : l with
  | nil => exact absurd hd h
  | cons a t => rfl

/-- C5 counterexample: the claim states that `parse_date` returns `None` only
for null (absent) input, but the empty string — a non-null input — is falsy in
Python and also yields `None`. -/
theorem parse_date_c5_counterexample : parse_date (some "") = none := by decide

/-- C5 (amended): `parse_date` returns `None` exactly for null or empty
input; for every non-empty input string it cleans the text, tries the six
explicit patterns in order and emits `YYYY-MM-DD` on the first full parse
(`"12/03/2024" ↦ "2024-03-12"`), otherwise falls back to the Italian
month-name scan with the day zero-padded (`"12 marzo 2024" ↦ "2024-03-12"`),
and otherwise returns the cleaned original text — never `None` at this stage
(`"testo libero" ↦ "testo libero"`). -/
theorem parse_date_c5_amended :
    parse_date none = none ∧
    parse_date (some "") = none ∧
    (∀ s : String, s.data ≠ [] → (parse_date (some s)).isSome = true) ∧
    parse_date (some "12/03/2024") = some "2024-03-12" ∧
    parse_date (some "12 marzo 2024") = some "2024-03-12" ∧
    parse_date (some "testo libero") = some "testo libero" ∧
    (∀ s : String, s.data ≠ [] →
      ∀ ymd, tryFormats (cleanChars s.data) = some ymd →
        parse_date (some s) = some (String.mk (formatYMD ymd))) ∧
    (∀ s : String, s.data ≠ [] → tryFormats (cleanChars s.data) = none →
      ∀ r, monthScan (cleanChars s.data) = some r →
        parse_date (some s) = some (String.mk r)) ∧
    (∀ s : String, s.data ≠ [] → tryFormats (cleanChars s.data) = none →
      monthScan (cleanChars s.data) = none →
      parse_date (some s) = some (String.mk (cleanChars s.data))) := by
  refine ⟨rfl, by decide, ?_, by decide, by decide, by decide, ?_, ?_, ?_⟩
  · intro s h
    rw [parse_date_some_eq, isEmpty_false_of_ne s.data h]
    simp only [Bool.false_eq_true, if_false]
    cases tryFormats (cleanChars s.data) with
    | some ymd => simp
    | none =>
      simp only []
      cases monthScan (cleanChars s.data) <;> simp
  · intro s h ymd hf
    rw [parse_date_some_eq, isEmpty_false_of_ne s.data h, hf]
    simp
  · intro s h hf r hm
    rw [parse_date_some_eq, isEmpty_false_of_ne s.data h, hf, hm]
    simp
  · intro s h hf hm
    rw [parse_date_some_eq, isEmpty_false_of_ne s.data h, hf, hm]
    simp

/-- Witness for C5 (amended), exercising the passthrough conjunct at a
concrete unparsable input. -/
theorem parse_date_c5_witness :
    parse_date (some "zzz") = some (String.mk (cleanChars "zzz".data)) :=
  parse_date_c5_amended.2.2.2.2.2.2.2.2 "zzz" (by decide) (by decide) (by decide)

/-! ## Properties of the vocabulary matcher (C4) -/

/-- C4 (evaluation at the failing input): `generate_variants` produces the
upper-case initialism `PMI` for the multi-word term, yet both a lower-case and
an upper-case occurrence of the initialism in the text match nothing, because
every variant is compared case-sensitively against the lowered text. -/
theorem match_vocab_c4_eval :
    generate_variants "piccole medie imprese" = ["piccole medie impresi", "PMI"] ∧
      match_to_controlled_vocab (some "le pmi del territorio")
        ["piccole medie imprese"] = [] ∧
      match_to_controlled_vocab (some "le PMI del territorio")
        ["piccole medie imprese"] = [] := by
  exact ⟨by decide, by decide, by decide⟩

/-! ## The ATECO section column (C7) -/

/-- C7 (evaluation at the failing input): a codes text containing
`sezione a` in lower case yields an empty `Sezione` column, because the scan
looks for the upper-case letter verbatim in the raw text and for
`sezione <LETTER>` (upper-case letter) inside the lowered text; with the
letters upper-cased in the input the standalone check does fire. -/
theorem sezione_c7_eval :
    lookupA "Sezione" (process_grant_data [("Codice ateco", some "sezione a")]) =
      some (PVal.vstr "") ∧
      atecoSections "sezione a" = [] ∧
      atecoSections "sezione A e B" = ["A", "B"] := by
  exact ⟨by decide, by decide, by decide⟩

/-! ## Record assembler: keys -/

theorem keys_dictSet (d : Rec) (k : String) (v : PVal) :
    (dictSet d k v).map Prod.fst = d.map Prod.fst := by
  unfold dictSet
  rw [List.map_map]
  refine List.map_congr_left ?_
  intro p _
  by_cases h : p.1 = k
  · simp [Function.comp, h]
  · simp [Function.comp, h]

theorem keys_copyStep (d : Rec) (p : String × Option String) :
    (copyStep d p).map Prod.fst = d.map Prod.fst := by
  unfold copyStep
  by_cases h : recHasKey d p.1
  · simp [h, keys_dictSet]
  · simp [h]

theorem keys_foldl {β : Type} (F : Rec → β → Rec)
    (hF : ∀ d f, (F d f).map Prod.fst = d.map Prod.fst) :
    ∀ (L : List β) (d : Rec), (L.foldl F d).map Prod.fst = d.map Prod.fst := by
  intro L
  induction L with
  | nil => intro d; rfl
  | cons f t ih => intro d; rw [List.foldl_cons, ih, hF]

theorem keys_applyFieldList (raw : RawMap) (L : List String)
    (g : Option String → PVal) (d : Rec) :
    (applyFieldList raw L g d).map Prod.fst = d.map Prod.fst := by
  unfold applyFieldList
  refine keys_foldl _ ?_ L d
  intro d f
  by_cases h : hasKey raw f
  · simp [h, keys_dictSet]
  · simp [h]

theorem keys_vocabStep (raw : RawMap) (src tgt : String) (vocab : List String)
    (d : Rec) : (vocabStep raw src tgt vocab d).map Prod.fst = d.map Prod.fst := by
  unfold vocabStep
  by_cases h : hasKey raw src
  · simp [h, keys_dictSet]
  · simp [h]

theorem keys_sezioneStep (raw : RawMap) (d : Rec) :
    (sezioneStep raw d).map Prod.fst = d.map Prod.fst := by
  unfold sezioneStep
  by_cases h : (hasKey raw "Codice ateco" && truthy (rawVal raw "Codice ateco")) = true
  · simp [h, keys_dictSet]
  · simp [h]

theorem keys_initRec : initRec.map Prod.fst = EXPECTED_COLUMNS := by
  unfold initRec
  rw [List.map_map]
  show EXPECTED_COLUMNS.map id = EXPECTED_COLUMNS
  exact List.map_id EXPECTED_COLUMNS

/-- C2: for every raw field map (any keys, values string or null), the record
produced by `process_grant_data` has exactly the key list `EXPECTED_COLUMNS` —
all 37 columns, in schema order, and no extra keys — regardless of which input
keys are present or absent. -/
theorem process_keys_c2 :
    EXPECTED_COLUMNS.length = 37 ∧
      ∀ raw : RawMap, (process_grant_data raw).map Prod.fst = EXPECTED_COLUMNS := by
  refine ⟨by decide, fun raw => ?_⟩
  unfold process_grant_data
  rw [keys_sezioneStep, keys_vocabStep, keys_vocabStep, keys_vocabStep,
    keys_applyFieldList, keys_applyFieldList, keys_applyFieldList,
    keys_foldl copyStep keys_copyStep raw initRec, keys_initRec]

/-- Witness for C2 at a concrete raw map containing an unexpected key and a
null value. -/
theorem process_keys_c2_witness :
    (process_grant_data [("Chiave ignota", some "x"), ("Tipo", none)]).map Prod.fst =
      EXPECTED_COLUMNS :=
  process_keys_c2.2 [("Chiave ignota", some "x"), ("Tipo", none)]

/-! ## Record assembler: lookups -/

theorem lookupA_cons {α : Type} (p : String × α) (t : List (String × α)) (c : String) :
    lookupA c (p :: t) = if p.1 = c then some p.2 else lookupA c t := rfl

theorem lookupA_dictSet_ne (k c : String) (v : PVal) (h : k ≠ c) :
    ∀ d : Rec, lookupA c (dictSet d k v) = lookupA c d := by
  intro d
  induction d with
  | nil => rfl
  | cons p t ih =>
    show lookupA c ((if p.1 = k then (k, v) else p) :: dictSet t k v) = _
    by_cases hp : p.1 = k
    · rw [if_pos hp, lookupA_cons, lookupA_cons]
      rw [if_neg h, if_neg (by rw [hp]; exact h), ih]
    · rw [if_neg hp, lookupA_cons, lookupA_cons]
      by_cases hc : p.1 = c
      · rw [if_pos hc, if_pos hc]
      · rw [if_neg hc, if_neg hc, ih]

theorem lookupA_dictSet_self (c : String) (v : PVal) :
    ∀ d : Rec, lookupA c (dictSet d c v) = (lookupA c d).map (fun _ => v) := by
  intro d
  induction d with
  | nil => rfl
  | cons p t ih =>
    show lookupA c ((if p.1 = c then (c, v) else p) :: dictSet t c v) = _
    by_cases hp : p.1 = c
    · rw [if_pos hp, lookupA_cons, lookupA_cons, if_pos rfl, if_pos hp]
      rfl
    · rw [if_neg hp, lookupA_cons, lookupA_cons, if_neg hp, if_neg hp, ih]

theorem lookupA_isSome_of_mem_keys (c : String) :
    ∀ d : Rec, c ∈ d.map Prod.fst → (lookupA c d).isSome = true := by
  intro d
  induction d with
  | nil => intro hc; simp at hc
  | cons p t ih =>
    intro hc
    rw [lookupA_cons]
    by_cases hp : p.1 = c
    · rw [if_pos hp]; rfl
    · rw [if_neg hp]
      refine ih ?_
      rw [List.map_cons] at hc
      rcases List.mem_cons.mp hc with h1 | h1
      · exact absurd h1.symm hp
      · exact h1

theorem lookupA_map_col (h : String → PVal) (c : String) :
    ∀ L : List String, c ∈ L → lookupA c (L.map (fun x => (x, h x))) = some (h c) := by
  intro L
  induction L with
  | nil => intro hc; simp at hc
  | cons x t ih =>
    intro hc
    rw [List.map_cons, lookupA_cons]
    by_cases hx : x = c
    · rw [if_pos hx, hx]
    · rw [if_neg hx]
      rcases List.mem_cons.mp hc with h1 | h1
      · exact absurd h1.symm hx
      · exact ih h1

theorem hasKey_cons (k : String) (v : Option String) (rest : RawMap) (c : String) :
    hasKey ((k, v) :: rest) c = ((k == c) || hasKey rest c) := by
  simp [hasKey]

theorem rawVal_cons (k : String) (v : Option String) (rest : RawMap) (c : String) :
    rawVal ((k, v) :: rest) c = if k = c then v else rawVal rest c := by
  by_cases h : k = c
  · simp [rawVal, lookupA, h]
  · simp [rawVal, lookupA, h]

theorem not_key_of_hasKey_false (raw : RawMap) (c : String)
    (h : hasKey raw c = false) : ∀ p ∈ raw, p.1 ≠ c := by
  intro p hp heq
  have h2 : hasKey raw c = true := by
    rw [hasKey, List.any_eq_true]
    exact ⟨p, hp, by simp [heq]⟩
  rw [h] at h2
  exact Bool.false_ne_true h2

theorem hasKey_false_of_not_mem (raw : RawMap) (c : String)
    (h : c ∉ raw.map Prod.fst) : hasKey raw c = false := by
  rw [hasKey]
  rw [List.any_eq_false]
  intro p hp
  simp only [beq_iff_eq]
  intro heq
  exact h (List.mem_map.mpr ⟨p, hp, heq⟩)

theorem dictSet_canonical (h : String → PVal) (k : String) (v : PVal)
    (L : List String) :
    dictSet (L.map (fun c => (c, h c))) k v =
      L.map (fun c => (c, if c = k then v else h c)) := by
  unfold dictSet
  rw [List.map_map]
  refine List.map_congr_left ?_
  intro c _
  by_cases hc : c = k
  · simp [Function.comp, hc]
  · simp [Function.comp, hc]

theorem recHasKey_map_col (h : String → PVal) (k : String) :
    ∀ L : List String, recHasKey (L.map (fun c => (c, h c))) k = L.any (fun c => c == k) := by
  intro L
  induction L with
  | nil => rfl
  | cons x t ih =>
    rw [List.map_cons]
    rw [show recHasKey ((x, h x) :: t.map (fun c => (c, h c))) k =
      ((x == k) || recHasKey (t.map (fun c => (c, h c))) k) from rfl]
    rw [ih, List.any_cons]

/-- The copy-through loop on the canonical record: under distinct raw keys it
sets exactly the expected columns present in the raw dict to their raw value. -/
theorem copy_canonical :
    ∀ (raw : RawMap), (raw.map Prod.fst).Nodup →
      ∀ h : String → PVal,
        raw.foldl copyStep (EXPECTED_COLUMNS.map (fun c => (c, h c))) =
          EXPECTED_COLUMNS.map
            (fun c => (c, if hasKey raw c then liftV (rawVal raw c) else h c)) := by
  intro raw
  induction raw with
  | nil =>
    intro _ h
    rw [List.foldl_nil]
    refine List.map_congr_left ?_
    intro c _
    simp [hasKey]
  | cons p rest ih =>
    intro hnd h
    obtain ⟨k, v⟩ := p
    rw [List.map_cons] at hnd
    have hknotin : k ∉ rest.map Prod.fst := (List.nodup_cons.mp hnd).1
    have hndr : (rest.map Prod.fst).Nodup := (List.nodup_cons.mp hnd).2
    rw [List.foldl_cons]
    by_cases hkE : k ∈ EXPECTED_COLUMNS
    · have hstep : copyStep (EXPECTED_COLUMNS.map (fun c => (c, h c))) (k, v) =
          EXPECTED_COLUMNS.map (fun c => (c, if c = k then liftV v else h c)) := by
        unfold copyStep
        rw [recHasKey_map_col]
        rw [if_pos (by rw [List.any_eq_true]; exact ⟨k, hkE, by simp⟩)]
        exact dictSet_canonical h k (liftV v) EXPECTED_COLUMNS
      rw [hstep, ih hndr]
      refine List.map_congr_left ?_
      intro c hcE
      by_cases hck : c = k
      · subst hck
        rw [hasKey_false_of_not_mem rest c hknotin]
        rw [hasKey_cons, rawVal_cons]
        simp
      · rw [hasKey_cons, rawVal_cons]
        rw [beq_false_of_ne (fun he => hck he.symm), Bool.false_or,
          if_neg (fun he : c = k => hck he), if_neg (fun he : k = c => hck he.symm)]
    · have hany : EXPECTED_COLUMNS.any (fun c => c == k) = false := by
        rw [List.any_eq_false]
        intro c hc
        simp only [beq_iff_eq]
        exact fun he => hkE (he ▸ hc)
      have hstep : copyStep (EXPECTED_COLUMNS.map (fun c => (c, h c))) (k, v) =
          EXPECTED_COLUMNS.map (fun c => (c, h c)) := by
        unfold copyStep
        rw [recHasKey_map_col, hany]
        simp
      rw [hstep, ih hndr h]
      refine List.map_congr_left ?_
      intro c hcE
      rw [hasKey_cons, rawVal_cons]
      rw [beq_false_of_ne (fun he : k = c => hkE (he ▸ hcE)), Bool.false_or,
        if_neg (fun he : k = c => hkE (he ▸ hcE))]

/-- C10: `process_grant_data` depends only on the expected-column entries of
its input — two raw maps (with dict-distinct keys) that agree on the presence
and value of every expected column produce identical records, whatever other
keys they carry. -/
theorem process_c10 (raw₁ raw₂ : RawMap)
    (h1 : (raw₁.map Prod.fst).Nodup) (h2 : (raw₂.map Prod.fst).Nodup)
    (hagree : ∀ c ∈ EXPECTED_COLUMNS,
      hasKey raw₁ c = hasKey raw₂ c ∧ rawVal raw₁ c = rawVal raw₂ c) :
    process_grant_data raw₁ = process_grant_data raw₂ := by
  unfold process_grant_data
  have hc : raw₁.foldl copyStep initRec = raw₂.foldl copyStep initRec := by
    unfold initRec
    rw [copy_canonical raw₁ h1, copy_canonical raw₂ h2]
    refine List.map_congr_left ?_
    intro c hcE
    obtain ⟨ha, hb⟩ := hagree c hcE
    rw [ha, hb]
  rw [hc]
  have hfold : ∀ (L : List String) (g : Option String → PVal),
      (∀ f ∈ L, f ∈ EXPECTED_COLUMNS) →
      ∀ d : Rec, applyFieldList raw₁ L g d = applyFieldList raw₂ L g d := by
    intro L g
    induction L with
    | nil => intro _ d; rfl
    | cons f t ih =>
      intro hsub d
      unfold applyFieldList at ih ⊢
      rw [List.foldl_cons, List.foldl_cons]
      obtain ⟨ha, hb⟩ := hagree f (hsub f (by simp))
      rw [ha, hb]
      exact ih (fun x hx => hsub x (by simp [hx])) _
  have hv : ∀ (src tgt : String) (vocab : List String), src ∈ EXPECTED_COLUMNS →
      ∀ d : Rec, vocabStep raw₁ src tgt vocab d = vocabStep raw₂ src tgt vocab d := by
    intro src tgt vocab hsrc d
    unfold vocabStep
    obtain ⟨ha, hb⟩ := hagree src hsrc
    rw [ha, hb]
  have hs : ∀ d : Rec, sezioneStep raw₁ d = sezioneStep raw₂ d := by
    intro d
    unfold sezioneStep
    obtain ⟨ha, hb⟩ := hagree "Codice ateco" (by decide)
    rw [ha, hb]
  rw [hfold textFields _ (by decide), hfold numFields _ (by decide),
    hfold dateFields _ (by decide), hv _ _ _ (by decide), hv _ _ _ (by decide),
    hv _ _ _ (by decide), hs]

/-- Witness for C10: two concrete raw maps differing only in keys outside the
schema produce the same record. -/
theorem process_c10_witness :
    process_grant_data [("Tipo", some "Clickday"), ("Chiave ignota", some "x")] =
      process_grant_data [("Tipo", some "Clickday"), ("Altra chiave", none)] :=
  process_c10 _ _ (by decide) (by decide) (by decide)

theorem lookupA_applyFieldList_ne (raw : RawMap) (g : Option String → PVal)
    (c : String) :
    ∀ (L : List String), (∀ f ∈ L, hasKey raw f = true → f ≠ c) →
      ∀ d : Rec, lookupA c (applyFieldList raw L g d) = lookupA c d := by
  intro L
  induction L with
  | nil => intro _ d; rfl
  | cons f t ih =>
    intro hL d
    unfold applyFieldList at ih ⊢
    rw [List.foldl_cons]
    rw [ih (fun x hx h => hL x (by simp [hx]) h) _]
    by_cases hf : hasKey raw f
    · rw [if_pos hf, lookupA_dictSet_ne f c _ (hL f (by simp) hf)]
    · rw [if_neg hf]

theorem lookupA_applyFieldList_set (raw : RawMap) (g : Option String → PVal)
    (c : String) :
    ∀ (L : List String), L.Nodup → c ∈ L → hasKey raw c = true →
      ∀ d : Rec, lookupA c (applyFieldList raw L g d) =
        (lookupA c d).map (fun _ => g (rawVal raw c)) := by
  intro L
  induction L with
  | nil => intro _ hc; simp at hc
  | cons f t ih =>
    intro hnd hc hk d
    unfold applyFieldList at ih ⊢
    rw [List.foldl_cons]
    rcases List.mem_cons.mp hc with hfc | hct
    · have hnotin : c ∉ t := by rw [hfc]; exact (List.nodup_cons.mp hnd).1
      have hpres : ∀ x ∈ t, hasKey raw x = true → x ≠ c :=
        fun x hx _ hxc => hnotin (hxc ▸ hx)
      rw [show (t.foldl
          (fun d f => if hasKey raw f then dictSet d f (g (rawVal raw f)) else d)
          (if hasKey raw f then dictSet d f (g (rawVal raw f)) else d)) =
        applyFieldList raw t g
          (if hasKey raw f then dictSet d f (g (rawVal raw f)) else d) from rfl]
      rw [lookupA_applyFieldList_ne raw g c t hpres _]
      rw [← hfc, if_pos (hfc ▸ hk)]
      rw [hfc, lookupA_dictSet_self]
    · have hfc : f ≠ c := fun h => (List.nodup_cons.mp hnd).1 (h ▸ hct)
      rw [ih (List.nodup_cons.mp hnd).2 hct hk _]
      congr 1
      by_cases hf : hasKey raw f
      · rw [if_pos hf, lookupA_dictSet_ne f c _ hfc]
      · rw [if_neg hf]

theorem lookupA_vocabStep_ne (raw : RawMap) (src tgt : String)
    (vocab : List String) (c : String) (h : tgt ≠ c) (d : Rec) :
    lookupA c (vocabStep raw src tgt vocab d) = lookupA c d := by
  unfold vocabStep
  by_cases hs : hasKey raw src
  · rw [if_pos hs, lookupA_dictSet_ne tgt c _ h]
  · rw [if_neg hs]

theorem lookupA_sezioneStep_ne (raw : RawMap) (c : String)
    (h : "Sezione" ≠ c) (d : Rec) :
    lookupA c (sezioneStep raw d) = lookupA c d := by
  unfold sezioneStep
  by_cases hs : (hasKey raw "Codice ateco" && truthy (rawVal raw "Codice ateco")) = true
  · rw [if_pos hs, lookupA_dictSet_ne _ c _ h]
  · rw [if_neg hs]

theorem lookupA_copy_ne (c : String) :
    ∀ (raw : RawMap), (∀ p ∈ raw, p.1 ≠ c) →
      ∀ d : Rec, lookupA c (raw.foldl copyStep d) = lookupA c d := by
  intro raw
  induction raw with
  | nil => intro _ d; rfl
  | cons p t ih =>
    intro hp d
    rw [List.foldl_cons, ih (fun q hq => hp q (by simp [hq])) _]
    unfold copyStep
    by_cases hk : recHasKey d p.1
    · rw [if_pos hk, lookupA_dictSet_ne p.1 c _ (hp p (by simp))]
    · rw [if_neg hk]

/-- C3 counterexample: null values do appear in the assembled record — a
numeric field whose text has no parsable figure, a date field whose raw value
is null, and a pass-through column whose raw value is null are all stored as
`None`, contradicting the claim that no null value ever appears. -/
theorem process_c3_counterexample :
    lookupA "Dotazione" (process_grant_data [("Dotazione", some "nessun numero")]) =
        some PVal.vnull ∧
      lookupA "Data creazione" (process_grant_data [("Data creazione", none)]) =
        some PVal.vnull ∧
      lookupA "Tipo" (process_grant_data [("Tipo", none)]) = some PVal.vnull := by
  exact ⟨by decide, by decide, by decide⟩

/-- C3 (amended): `process_grant_data` is total and assigns every expected
column a value; a column that is absent from the input and is not one of the
four derived columns is the empty string; a text-subset column present in the
input is always the cleaned string (never null); a numeric-subset column
present in the input is `extract_number`'s float or null; a date-subset column
present in the input is `parse_date`'s string or null.  Null values can
therefore appear (in numeric, date and pass-through columns), but never in the
cleaned-text columns. -/
theorem process_c3_amended :
    (∀ (raw : RawMap) (c : String), c ∈ EXPECTED_COLUMNS → hasKey raw c = false →
        c ∉ derivedCols → lookupA c (process_grant_data raw) = some (PVal.vstr "")) ∧
    (∀ (raw : RawMap) (f : String), f ∈ textFields → hasKey raw f = true →
        lookupA f (process_grant_data raw) =
          some (PVal.vstr (clean_text (rawVal raw f)))) ∧
    (∀ (raw : RawMap) (f : String), f ∈ numFields → hasKey raw f = true →
        lookupA f (process_grant_data raw) = some (numV (rawVal raw f))) ∧
    (∀ (raw : RawMap) (f : String), f ∈ dateFields → hasKey raw f = true →
        lookupA f (process_grant_data raw) = some (dateV (rawVal raw f))) := by
  have hkeys0 : ∀ raw : RawMap, (raw.foldl copyStep initRec).map Prod.fst =
      EXPECTED_COLUMNS := by
    intro raw
    rw [keys_foldl copyStep keys_copyStep raw initRec, keys_initRec]
  have hkeys1 : ∀ (raw : RawMap) (L : List String) (g : Option String → PVal),
      (applyFieldList raw L g (raw.foldl copyStep initRec)).map Prod.fst =
        EXPECTED_COLUMNS := by
    intro raw L g
    rw [keys_applyFieldList, hkeys0]
  refine ⟨?_, ?_, ?_, ?_⟩
  · -- absent, non-derived columns stay ""
    intro raw c hcE hkF hder
    unfold process_grant_data
    rw [lookupA_sezioneStep_ne raw c (fun he => hder (by rw [← he]; decide)) _]
    rw [lookupA_vocabStep_ne raw _ _ _ c (fun he => hder (by rw [← he]; decide)) _]
    rw [lookupA_vocabStep_ne raw _ _ _ c (fun he => hder (by rw [← he]; decide)) _]
    rw [lookupA_vocabStep_ne raw _ _ _ c (fun he => hder (by rw [← he]; decide)) _]
    have hno : ∀ (L : List String), ∀ f ∈ L, hasKey raw f = true → f ≠ c := by
      intro L f _ hf hfc
      rw [hfc, hkF] at hf
      exact Bool.false_ne_true hf
    rw [lookupA_applyFieldList_ne raw _ c dateFields (hno dateFields) _]
    rw [lookupA_applyFieldList_ne raw _ c numFields (hno numFields) _]
    rw [lookupA_applyFieldList_ne raw _ c textFields (hno textFields) _]
    rw [lookupA_copy_ne c raw (not_key_of_hasKey_false raw c hkF) _]
    exact lookupA_map_col (fun _ => PVal.vstr "") c EXPECTED_COLUMNS hcE
  · -- text columns present in the input: cleaned string
    intro raw f hfT hk
    unfold process_grant_data
    rw [lookupA_sezioneStep_ne raw f (fun he => by rw [← he] at hfT; revert hfT; decide) _]
    rw [lookupA_vocabStep_ne raw _ _ _ f (fun he => by rw [← he] at hfT; revert hfT; decide) _]
    rw [lookupA_vocabStep_ne raw _ _ _ f (fun he => by rw [← he] at hfT; revert hfT; decide) _]
    rw [lookupA_vocabStep_ne raw _ _ _ f (fun he => by rw [← he] at hfT; revert hfT; decide) _]
    have hdisj : ∀ (L : List String), (∀ x ∈ L, x ∉ textFields) →
        ∀ x ∈ L, hasKey raw x = true → x ≠ f := by
      intro L hL x hx _ hxf
      exact hL x hx (hxf ▸ hfT)
    rw [lookupA_applyFieldList_ne raw _ f dateFields (hdisj dateFields (by decide)) _]
    rw [lookupA_applyFieldList_ne raw _ f numFields (hdisj numFields (by decide)) _]
    rw [lookupA_applyFieldList_set raw _ f textFields (by decide) hfT hk _]
    have hsome := lookupA_isSome_of_mem_keys f (raw.foldl copyStep initRec)
      (by rw [hkeys0 raw]; exact (by decide : ∀ x ∈ textFields, x ∈ EXPECTED_COLUMNS) f hfT)
    obtain ⟨x, hx⟩ := Option.isSome_iff_exists.mp hsome
    rw [hx]
    rfl
  · -- numeric columns present in the input
    intro raw f hfN hk
    unfold process_grant_data
    rw [lookupA_sezioneStep_ne raw f (fun he => by rw [← he] at hfN; revert hfN; decide) _]
    rw [lookupA_vocabStep_ne raw _ _ _ f (fun he => by rw [← he] at hfN; revert hfN; decide) _]
    rw [lookupA_vocabStep_ne raw _ _ _ f (fun he => by rw [← he] at hfN; revert hfN; decide) _]
    rw [lookupA_vocabStep_ne raw _ _ _ f (fun he => by rw [← he] at hfN; revert hfN; decide) _]
    have hdisj : ∀ (L : List String), (∀ x ∈ L, x ∉ numFields) →
        ∀ x ∈ L, hasKey raw x = true → x ≠ f := by
      intro L hL x hx _ hxf
      exact hL x hx (hxf ▸ hfN)
    rw [lookupA_applyFieldList_ne raw _ f dateFields (hdisj dateFields (by decide)) _]
    rw [lookupA_applyFieldList_set raw _ f numFields (by decide) hfN hk _]
    have hsome := lookupA_isSome_of_mem_keys f
      (applyFieldList raw textFields (fun v => PVal.vstr (clean_text v))
        (raw.foldl copyStep initRec))
      (by rw [hkeys1 raw textFields _]
          exact (by decide : ∀ x ∈ numFields, x ∈ EXPECTED_COLUMNS) f hfN)
    obtain ⟨x, hx⟩ := Option.isSome_iff_exists.mp hsome
    rw [hx]
    rfl
  · -- date columns present in the input
    intro raw f hfD hk
    unfold process_grant_data
    rw [lookupA_sezioneStep_ne raw f (fun he => by rw [← he] at hfD; revert hfD; decide) _]
    rw [lookupA_vocabStep_ne raw _ _ _ f (fun he => by rw [← he] at hfD; revert hfD; decide) _]
    rw [lookupA_vocabStep_ne raw _ _ _ f (fun he => by rw [← he] at hfD; revert hfD; decide) _]
    rw [lookupA_vocabStep_ne raw _ _ _ f (fun he => by rw [← he] at hfD; revert hfD; decide) _]
    rw [lookupA_applyFieldList_set raw _ f dateFields (by decide) hfD hk _]
    have hsome := lookupA_isSome_of_mem_keys f
      (applyFieldList raw numFields numV
        (applyFieldList raw textFields (fun v => PVal.vstr (clean_text v))
          (raw.foldl copyStep initRec)))
      (by rw [keys_applyFieldList, hkeys1 raw textFields _]
          exact (by decide : ∀ x ∈ dateFields, x ∈ EXPECTED_COLUMNS) f hfD)
    obtain ⟨x, hx⟩ := Option.isSome_iff_exists.mp hsome
    rw [hx]
    rfl

/-- Witness for C3 (amended) at concrete inputs: an unset pass-through column
is the empty string, and a present numeric column carries `extract_number`'s
value. -/
theorem process_c3_witness :
    lookupA "Tipo" (process_grant_data [("Dotazione", some "5")]) =
        some (PVal.vstr "") ∧
      lookupA "Dotazione" (process_grant_data [("Dotazione", some "5")]) =
        some (numV (rawVal [("Dotazione", some "5")] "Dotazione")) :=
  ⟨process_c3_amended.1 [("Dotazione", some "5")] "Tipo" (by decide) (by decide)
      (by decide),
    process_c3_amended.2.2.1 [("Dotazione", some "5")] "Dotazione" (by decide)
      (by decide)⟩

/-! ## The requirement detector -/

theorem filter_isEmpty_eq {α : Type} (p : α → Bool) :
    ∀ l : List α, (l.filter p).isEmpty = !l.any p := by
  intro l
  induction l with
  | nil => rfl
  | cons a t ih =>
    by_cases h : p a = true
    · simp [List.filter_cons, List.any_cons, h]
    · simp [List.filter_cons, List.any_cons, h, ih]

theorem occStep_eq_occStepU (critical : Bool) (text : List Char) (W plen : Nat) :
    occStep critical text W plen = occStepU critical text W plen := by
  funext st j
  simp only [occStep, occStepU, filter_isEmpty_eq, ctxHasKw]
  by_cases he : ctxHasExcl (ctxWindow text W plen j) = true <;>
    by_cases hk : (validation_keywords.any
        fun k => containsSub k.data (ctxWindow text W plen j)) = true <;>
      cases critical <;> simp [he, hk]

theorem processTarget_eq (text : List Char) :
    processTarget text = processTargetU text := by
  funext acc target
  simp only [processTarget, processTargetU, occStep_eq_occStepU]

/-- C8: in `find_target_words` the per-occurrence confirmation decision is
independent of criticality — replacing the non-critical branch's
non-empty-found-keywords test with the critical branch's any-keyword test
yields an extensionally equal function; criticality only selects the context
window width (300 against 200). -/
theorem find_target_words_c8 :
    ∀ (text : String) (target_words : List String),
      find_target_words text target_words =
        find_target_words_uniform text target_words := by
  intro text target_words
  unfold find_target_words find_target_words_uniform
  rw [processTarget_eq (lowerL text.data)]

/-- Witness for C8 at a concrete text and catalog. -/
theorem find_target_words_c8_witness :
    find_target_words "allegare il durc e la visura camerale" ["durc", "visura camerale"] =
      find_target_words_uniform "allegare il durc e la visura camerale"
        ["durc", "visura camerale"] :=
  find_target_words_c8 "allegare il durc e la visura camerale" ["durc", "visura camerale"]

theorem foldl_occStep_flag (text : List Char) (W plen : Nat) :
    ∀ (occs : List Nat) (b : Bool) (cs : List (List Char)),
      (occs.foldl (occStep true text W plen) (b, cs)).1 =
        (b || occs.any (goodOcc text W plen)) := by
  intro occs
  induction occs with
  | nil => intro b cs; simp
  | cons j t ih =>
    intro b cs
    rw [List.foldl_cons, List.any_cons]
    by_cases he : ctxHasExcl (ctxWindow text W plen j) = true
    · rw [show occStep true text W plen (b, cs) j = (b, cs) from by
        simp [occStep, he]]
      rw [ih b cs]
      simp [goodOcc, he, Bool.or_assoc]
    · by_cases hk : ctxHasKw (ctxWindow text W plen j) = true
      · rw [show occStep true text W plen (b, cs) j =
          (true, cs ++ [highlightSnippet text W plen j]) from by
            simp [occStep, he, hk]]
        rw [ih true _]
        simp [goodOcc, he, hk]
      · rw [show occStep true text W plen (b, cs) j = (b, cs) from by
          simp [occStep, he, hk]]
        rw [ih b cs]
        simp [goodOcc, he, hk, Bool.or_assoc]

theorem findOccsFrom_matchAt (pat text : List Char) :
    ∀ (fuel j0 j : Nat), j ∈ findOccsFrom pat text fuel j0 →
      matchAt pat text j = true := by
  intro fuel
  induction fuel with
  | zero => intro j0 j h; simp [findOccsFrom] at h
  | succ n ih =>
    intro j0 j h
    rw [findOccsFrom] at h
    by_cases hle : j0 + pat.length ≤ text.length
    · rw [if_pos hle] at h
      by_cases hm : matchAt pat text j0 = true
      · rw [if_pos hm] at h
        rcases List.mem_cons.mp h with h1 | h1
        · rw [h1]; exact hm
        · exact ih _ j h1
      · rw [if_neg hm] at h
        exact ih _ j h
    · rw [if_neg hle] at h
      simp at h

theorem isPrefixOf_append_self : ∀ (l r : List Char), l.isPrefixOf (l ++ r) = true := by
  intro l
  induction l with
  | nil => intro r; simp [List.isPrefixOf]
  | cons a t ih =>
    intro r
    rw [List.cons_append]
    simp [List.isPrefixOf, ih]

theorem containsSub_nil_left (s : List Char) : containsSub [] s = true := by
  cases s <;> rfl

theorem containsSub_of_parts (pat : List Char) :
    ∀ (pre post : List Char), containsSub pat (pre ++ pat ++ post) = true := by
  intro pre
  induction pre with
  | nil =>
    intro post
    cases hp : pat with
    | nil => simpa using containsSub_nil_left post
    | cons c ct =>
      show containsSub (c :: ct) ((c :: ct) ++ post) = true
      show ((c :: ct).isPrefixOf ((c :: ct) ++ post) || containsSub (c :: ct) (ct ++ post)) = true
      rw [isPrefixOf_append_self]
      simp
  | cons a pre2 ih =>
    intro post
    rw [List.cons_append]
    show (pat.isPrefixOf (a :: (pre2 ++ pat ++ post)) ||
      containsSub pat (pre2 ++ pat ++ post)) = true
    rw [ih post]
    simp

theorem matchAt_containsSub (pat text : List Char) (j : Nat)
    (h : matchAt pat text j = true) : containsSub pat text = true := by
  have h1 : ((text.drop j).take pat.length == pat) = true := by
    simp only [matchAt, Bool.and_eq_true] at h
    exact h.1.1
  have h2 : (text.drop j).take pat.length = pat := eq_of_beq h1
  have e1 : text.drop j = pat ++ (text.drop j).drop pat.length := by
    conv_lhs => rw [← List.take_append_drop pat.length (text.drop j)]
    rw [h2]
  have hdecomp : text = text.take j ++ pat ++ (text.drop j).drop pat.length := by
    calc text = text.take j ++ text.drop j := (List.take_append_drop j text).symm
    _ = text.take j ++ (pat ++ (text.drop j).drop pat.length) := by rw [← e1]
    _ = text.take j ++ pat ++ (text.drop j).drop pat.length := by
        rw [List.append_assoc]
  rw [hdecomp]
  exact containsSub_of_parts pat (text.take j) ((text.drop j).drop pat.length)

theorem processTarget_found_critical (text : List Char) (target : String)
    (hcrit : critical_documents.contains (lowerS target) = true)
    (hsp : ((lowerS target).data.contains ' ' ||
      decide (3 < (lowerS target).data.length)) = true) :
    (processTarget text ([], []) target).1 =
      if (containsSub (lowerS target).data text &&
            !(findOccs (lowerS target).data text).isEmpty &&
            (findOccs (lowerS target).data text).any
              (goodOcc text 300 (lowerS target).data.length)) = true
      then [target] else [] := by
  have hflag := foldl_occStep_flag text 300 (lowerS target).data.length
    (findOccs (lowerS target).data text) false []
  rw [Bool.false_or] at hflag
  simp only [processTarget, hcrit, hsp]
  simp only [if_true, eq_self_iff_true]
  rw [hflag]
  by_cases hin : containsSub (lowerS target).data text = true
  · by_cases hocc : (findOccs (lowerS target).data text).isEmpty = true
    · have hnil : findOccs (lowerS target).data text = [] := by
        cases hfo : findOccs (lowerS target).data text with
        | nil => rfl
        | cons a t => rw [hfo] at hocc; simp at hocc
      simp [hin, hocc, hnil]
    · by_cases hany : (findOccs (lowerS target).data text).any
          (goodOcc text 300 (lowerS target).data.length) = true
      · simp [hin, hocc, hany]
        split <;> simp [*]
      · simp [hin, hocc, hany]
        split <;> simp [*]
  · have hany : (findOccs (lowerS target).data text).any
        (goodOcc text 300 (lowerS target).data.length) = false := by
      cases ha : (findOccs (lowerS target).data text).any
          (goodOcc text 300 (lowerS target).data.length) with
      | false => rfl
      | true =>
        obtain ⟨j, hj, _⟩ := List.any_eq_true.mp ha
        exact absurd
          (matchAt_containsSub (lowerS target).data text j
            (findOccsFrom_matchAt (lowerS target).data text (text.length + 1) 0 j hj))
          hin
    simp [hin, hany]

/-- C1: requirement detection confirms an occurrence of the catalog phrase
`codice fiscale` exactly when its context window contains at least one
requirement trigger keyword and no negation phrase; in particular the phrase
is found in `"è necessario allegare il codice fiscale del richiedente"` and
is suppressed in `"non è necessario presentare il codice fiscale"`. -/
theorem find_target_words_c1 :
    (∀ text : String, text.data.all isPySpace = false →
      ("codice fiscale" ∈ (find_target_words text ["codice fiscale"]).1 ↔
        (findOccs "codice fiscale".data (lowerL text.data)).any
          (goodOcc (lowerL text.data) 300 "codice fiscale".data.length) = true)) ∧
    (find_target_words "è necessario allegare il codice fiscale del richiedente"
      ["codice fiscale"]).1 = ["codice fiscale"] ∧
    (find_target_words "non è necessario presentare il codice fiscale"
      ["codice fiscale"]).1 = [] := by
  refine ⟨?_, by decide, by decide⟩
  intro text hws
  unfold find_target_words
  rw [hws]
  simp only [Bool.false_eq_true, if_false]
  rw [List.foldl_cons, List.foldl_nil]
  have hlow : lowerS "codice fiscale" = "codice fiscale" := by decide
  have h := processTarget_found_critical (lowerL text.data) "codice fiscale"
    (by decide) (by decide)
  rw [hlow] at h
  rw [h]
  by_cases hc : (containsSub "codice fiscale".data (lowerL text.data) &&
      !(findOccs "codice fiscale".data (lowerL text.data)).isEmpty &&
      (findOccs "codice fiscale".data (lowerL text.data)).any
        (goodOcc (lowerL text.data) 300 "codice fiscale".data.length)) = true
  · rw [if_pos hc]
    simp only [Bool.and_eq_true] at hc
    constructor
    · intro _
      exact hc.2
    · intro _
      exact List.mem_singleton.mpr rfl
  · rw [if_neg hc]
    constructor
    · intro hmem
      simp at hmem
    · intro hany
      exfalso
      apply hc
      obtain ⟨j, hj, hgood⟩ := List.any_eq_true.mp hany
      have hm := findOccsFrom_matchAt "codice fiscale".data (lowerL text.data) _ 0 j hj
      have hin := matchAt_containsSub _ _ _ hm
      have hne : (findOccs "codice fiscale".data (lowerL text.data)).isEmpty = false := by
        cases hfo : findOccs "codice fiscale".data (lowerL text.data) with
        | nil => rw [hfo] at hj; simp at hj
        | cons a t => rfl
      rw [hin, hne, hany]
      rfl

/-- Witness for C1: the general characterization applied to the first
concrete text. -/
theorem find_target_words_c1_witness :
    "codice fiscale" ∈ (find_target_words
        "è necessario allegare il codice fiscale del richiedente"
        ["codice fiscale"]).1 ↔
      (findOccs "codice fiscale".data
          (lowerL "è necessario allegare il codice fiscale del richiedente".data)).any
        (goodOcc (lowerL "è necessario allegare il codice fiscale del richiedente".data)
          300 "codice fiscale".data.length) = true :=
  find_target_words_c1.1 "è necessario allegare il codice fiscale del richiedente"
    (by decide)
